import Mathlib

/-!
Verification of the output-packaging and request-handling logic of the
jncep web front-end (`src/app.py`), as a shallow embedding in Lean.

Data model: a directory is a list of file records (enumeration order is
the list order); a file record is a base name, a byte content, and a
modification time.  The packager `make_one_bytesio_file` from `app.py`
is translated as a pure function from a directory to either a Python
exception or a payload (single file bytes, or a list of zip entries)
together with a download name.
-/

namespace JncepWebui

/-- A byte string: contents of a file. -/
abbrev Bytes := List Nat

/-- A file inside the request-scoped output directory: a base name (the
final path component), its content and its modification time.  The
modification time matters because `zipfile.ZipFile.write` stamps each
archive entry with the source file's mtime. -/
structure FSFile where
  name : String
  content : Bytes
  mtime : Nat
  deriving DecidableEq, Repr

/-- One entry of the in-memory zip archive built by the multi-file
branch: `zipf.write(file, arcname=file.name)` records the arcname, the
source file's modification time and its (deterministically compressed)
content. -/
structure ZipEntry where
  arcname : String
  mtime : Nat
  data : Bytes
  deriving DecidableEq, Repr

/-- The in-memory payload produced by the packager: either the raw bytes
of the single generated file, or a zip archive of all generated files. -/
inductive Payload where
  | single (bytes : Bytes)
  | zipArchive (entries : List ZipEntry)
  deriving DecidableEq, Repr

/-- Python exceptions that the translated code can raise. -/
inductive PyError where
  | indexError   -- `files[0]` on an empty list
  | valueError   -- `str.index` when the substring is absent
  | keyError     -- `request.form[k]` when the field is absent (Flask BadRequestKeyError)
  deriving DecidableEq, Repr

/-- First index (in characters) at which `needle` occurs in `hay`;
`none` when it does not occur.  This is Python's `str.index`, with the
ValueError represented by `none`. -/
def findSub (needle : List Char) : List Char → Option Nat
  | [] => if needle = [] then some 0 else none
  | c :: rest =>
    if needle.isPrefixOf (c :: rest) then some 0
    else (findSub needle rest).map (· + 1)

/-- Python `pathlib.PurePath.stem`: the file name without its last
suffix.  The suffix is the part from the last `'.'` when that dot is
neither the first nor the last character of the name (CPython computes
it from `name.rfind('.')`; here the rfind index is recovered from the
first occurrence of `'.'` in the reversed name). -/
def pyStem (name : String) : String :=
  match findSub ['.'] name.data.reverse with
  | none => name
  | some r =>
    if 0 < name.data.length - 1 - r ∧ name.data.length - 1 - r < name.data.length - 1 then
      String.mk (name.data.take (name.data.length - 1 - r))
    else name

/-- The separator token used by `make_one_bytesio_file` to derive the
archive name. -/
def volToken : List Char := "_Volume_".data

/-- Model of `Path(directory).glob('*.epub')`: the files of the
directory whose name ends in `.epub` (the fnmatch pattern `*.epub`
matches exactly the names with that suffix), in enumeration order. -/
def globEpub (d : List FSFile) : List FSFile :=
  d.filter (fun f => ".epub".data.isSuffixOf f.name.data)

/-- Translation of `make_one_bytesio_file` (`src/app.py:34-52`).

```
files = list(Path(directory).glob('*.epub'))
if len(list(files)) == 1:
    with open(files[0], "rb") as file:
        memory_file = BytesIO(file.read())
    return memory_file, files[0].name
memory_file = BytesIO()
with zipfile.ZipFile(memory_file, 'w', zipfile.ZIP_DEFLATED) as zipf:
    for file in files:
        zipf.write(file, arcname=file.name)
memory_file.seek(0)
return memory_file, f"{files[0].stem[:files[0].stem.index('_Volume_')]}.zip"
```

On zero files the `for` loop writes nothing and `files[0]` raises
`IndexError`; a missing `'_Volume_'` in the first stem raises
`ValueError` from `str.index` (the zip buffer built before that line is
discarded with the exception, so it is not modelled in the error
branch). -/
def make_one_bytesio_file (d : List FSFile) : Except PyError (Payload × String) :=
  match globEpub d with
  | [f] => .ok (.single f.content, f.name)
  | [] => .error .indexError
  | f :: rest =>
    match findSub volToken (pyStem f.name).data with
    | none => .error .valueError
    | some i =>
      .ok (.zipArchive ((f :: rest).map (fun g => ZipEntry.mk g.name g.mtime g.content)),
           String.mk ((pyStem f.name).data.take i) ++ ".zip")

/-- The form fields of a POST request to `/`: each field is `some v`
when present with value `v` (possibly the empty string) and `none` when
absent from the submitted form. -/
structure FormData where
  jnovelclub_url : Option String
  prepub_parts : Option String
  deriving DecidableEq, Repr

/-- Errors that terminate a request to the POST handler `index`
(`src/app.py:63-84`): a Flask `BadRequestKeyError` from
`request.form[key]` on a missing field, an exception propagating out of
`generate_epub.callback`, or an exception from the packager. -/
inductive HandlerError where
  | badRequestKey
  | generationFailed
  | packagingFailed (e : PyError)
  deriving DecidableEq, Repr

/-- Observable outcome of one run of the POST handler: which arguments
(if any) reached `create_epub`, whether `make_one_bytesio_file` was
called, whether the `shutil.rmtree` cleanup line was reached, and the
response (payload plus download name, or the propagated error). -/
structure HandlerResult where
  genInvoked : Option (String × String)
  packagerInvoked : Bool
  cleanupAttempted : Bool
  response : Except HandlerError (Payload × String)
  deriving Repr

/-- Translation of the POST handler `index` (`src/app.py:63-84`).  The
generation step (directory creation plus `generate_epub.callback` inside
`create_epub`) is abstracted as a function `gen` from the URL and part
specifier to either an error or the list of files it leaves in the
request-scoped output directory.

```
logger.debug(f"Requested JNC URL: {request.form['jnovelclub_url']}")   # raises if absent
if request.form.get("prepub_parts"): ... else: ...                      # never raises
epub_path = create_epub(request.form['jnovelclub_url'], request.form['prepub_parts'])
file_object, filename = make_one_bytesio_file(epub_path)
shutil.rmtree(Path(epub_path).parent, ignore_errors=True)
return send_file(file_object, download_name=filename, as_attachment=True)
```

There is no try/except, so any exception skips every following line. -/
def index (form : FormData) (gen : String → String → Except Unit (List FSFile)) :
    HandlerResult :=
  match form.jnovelclub_url with
  | none => ⟨none, false, false, .error .badRequestKey⟩
  | some url =>
    match form.prepub_parts with
    | none => ⟨none, false, false, .error .badRequestKey⟩
    | some parts =>
      match gen url parts with
      | .error _ => ⟨some (url, parts), false, false, .error .generationFailed⟩
      | .ok files =>
        match make_one_bytesio_file files with
        | .error e => ⟨some (url, parts), true, false, .error (.packagingFailed e)⟩
        | .ok (payload, nm) => ⟨some (url, parts), true, true, .ok (payload, nm)⟩

/-- Index of the last occurrence of a character in a list, if any. -/
def lastIdxOf (c : Char) : List Char → Option Nat
  | [] => none
  | a :: rest =>
    match lastIdxOf c rest with
    | some i => some (i + 1)
    | none => if a = c then some 0 else none

/-- Model of Python `Path(p).parent`: everything before the last path
separator.  This agrees with pathlib on normalized paths (no repeated
or trailing separators), which is the domain the handler produces:
`f"{root}/{addr}/{timestamp}"` with a nonempty, separator-free address
and timestamp and a nonempty root not ending in a separator. -/
def pathParent (p : String) : String :=
  match lastIdxOf '/' p.data with
  | none => "."
  | some i => String.mk (p.data.take i)

/-- The request-scoped working directory built by `create_epub`
(`src/app.py:21-23`): `f"{os.environ['JNCEP_OUTPUT']}/{request.remote_addr}/{timestamp}"`. -/
def output_dirpath (root addr ts : String) : String :=
  root ++ "/" ++ addr ++ "/" ++ ts

/-- The directory the success-path cleanup removes
(`src/app.py:81`): `shutil.rmtree(Path(epub_path).parent, ignore_errors=True)`. -/
def cleanupTarget (root addr ts : String) : String :=
  pathParent (output_dirpath root addr ts)

/-- A path lies inside the tree removed by `shutil.rmtree(target)`:
either it is the target itself or it is strictly below it. -/
def removedBy (target p : String) : Prop :=
  p = target ∨ (target ++ "/").data.isPrefixOf p.data = true

/-- Rebuilding a string from its character list is the identity. -/
theorem strMk_data (s : String) : String.mk s.data = s := by
  cases s
  rfl

/-- Characterization of `findSub`: it returns the first index at which
the needle occurs as a prefix of the remaining hay. -/
theorem findSub_eq_some_iff (n h : List Char) (i : Nat) :
    findSub n h = some i ↔ n <+: h.drop i ∧ ∀ j, j < i → ¬ n <+: h.drop j := by
  induction h generalizing i with
  | nil =>
    constructor
    · intro hEq
      by_cases hn : n = []
      · subst hn
        simp only [findSub, if_true] at hEq
        have hEq2 : 0 = i := by simpa using hEq
        subst hEq2
        exact ⟨List.nil_prefix, fun j hj => absurd hj (by omega)⟩
      · simp [findSub, hn] at hEq
    · rintro ⟨hpre, hmin⟩
      have hn : n = [] := by simpa using hpre
      subst hn
      have hi : i = 0 := by
        by_contra h0
        exact hmin 0 (Nat.pos_of_ne_zero h0) List.nil_prefix
      subst hi
      simp [findSub]
  | cons c rest ih =>
    constructor
    · intro hEq
      by_cases hp : n.isPrefixOf (c :: rest) = true
      · simp only [findSub, if_pos hp, Option.some.injEq] at hEq
        subst hEq
        exact ⟨List.isPrefixOf_iff_prefix.mp hp, fun j hj => absurd hj (by omega)⟩
      · simp only [findSub, if_neg hp, Option.map_eq_some'] at hEq
        obtain ⟨j, hj, rfl⟩ := hEq
        obtain ⟨hpre, hmin⟩ := (ih j).mp hj
        refine ⟨by simpa using hpre, ?_⟩
        intro k hk
        cases k with
        | zero =>
          intro hc
          exact hp (List.isPrefixOf_iff_prefix.mpr (by simpa using hc))
        | succ m =>
          intro hc
          exact hmin m (by omega) (by simpa using hc)
    · rintro ⟨hpre, hmin⟩
      by_cases hp : n.isPrefixOf (c :: rest) = true
      · have hi : i = 0 := by
          by_contra h0
          exact hmin 0 (Nat.pos_of_ne_zero h0)
            (by simpa using List.isPrefixOf_iff_prefix.mp hp)
        subst hi
        simp [findSub, hp]
      · cases i with
        | zero =>
          exact absurd (List.isPrefixOf_iff_prefix.mpr (by simpa using hpre)) hp
        | succ m =>
          have hrec : findSub n rest = some m := by
            refine (ih m).mpr ⟨by simpa using hpre, ?_⟩
            intro j hj hc
            exact hmin (j + 1) (by omega) (by simpa using hc)
          simp [findSub, hp, hrec]

/-- Dual characterization: `findSub` returns `none` exactly when the
needle occurs nowhere in the hay. -/
theorem findSub_eq_none_iff (n h : List Char) :
    findSub n h = none ↔ ∀ j, ¬ n <+: h.drop j := by
  induction h with
  | nil =>
    by_cases hn : n = []
    · subst hn
      constructor
      · intro hEq
        simp [findSub] at hEq
      · intro hall
        exact absurd List.nil_prefix (hall 0)
    · constructor
      · intro _ j hc
        exact hn (by simpa using hc)
      · intro _
        simp [findSub, hn]
  | cons c rest ih =>
    by_cases hp : n.isPrefixOf (c :: rest) = true
    · constructor
      · intro hEq
        simp [findSub, hp] at hEq
      · intro hall
        exact absurd (List.isPrefixOf_iff_prefix.mp hp) (by simpa using hall 0)
    · simp only [findSub, if_neg hp, Option.map_eq_none']
      rw [ih]
      constructor
      · intro hall j
        cases j with
        | zero =>
          intro hc
          exact hp (List.isPrefixOf_iff_prefix.mpr (by simpa using hc))
        | succ m =>
          intro hc
          exact hall m (by simpa using hc)
      · intro hall j hc
        exact hall (j + 1) (by simpa using hc)

/-- A prefix of an appended list that fits inside the left part is a
prefix of the left part. -/
theorem prefix_of_append_of_length_le {n A tl : List Char} (h : n <+: A ++ tl)
    (hl : n.length ≤ A.length) : n <+: A := by
  obtain ⟨t, ht⟩ := h
  refine ⟨t.take (A.length - n.length), ?_⟩
  simpa [List.take_append_eq_append_take, List.take_of_length_le hl, Nat.sub_self]
    using congrArg (List.take A.length) ht

/-- Searching an extended hay: an occurrence found in `st` is also the
first occurrence in `st ++ tl`, and it lies entirely inside `st`. -/
theorem findSub_append_left {n st : List Char} (tl : List Char) {i : Nat}
    (hn : n ≠ []) (h : findSub n st = some i) :
    findSub n (st ++ tl) = some i ∧ i + n.length ≤ st.length := by
  obtain ⟨hpre, hmin⟩ := (findSub_eq_some_iff n st i).mp h
  have hlen : n.length ≤ st.length - i := by simpa using hpre.length_le
  have h1 : 1 ≤ n.length := List.length_pos.mpr hn
  have hi : i + n.length ≤ st.length := by omega
  refine ⟨(findSub_eq_some_iff _ _ _).mpr ⟨?_, ?_⟩, hi⟩
  · have hdrop : (st ++ tl).drop i = st.drop i ++ tl := by
      rw [List.drop_append_eq_append_drop, Nat.sub_eq_zero_of_le (by omega), List.drop_zero]
    rw [hdrop]
    exact hpre.trans (List.prefix_append _ _)
  · intro j hj hc
    have hdropj : (st ++ tl).drop j = st.drop j ++ tl := by
      rw [List.drop_append_eq_append_drop, Nat.sub_eq_zero_of_le (by omega), List.drop_zero]
    rw [hdropj] at hc
    have hjl : n.length ≤ (st.drop j).length := by
      rw [List.length_drop]
      omega
    exact hmin j hj (prefix_of_append_of_length_le hc hjl)

/-- Computation of the rfind step of `pyStem` on a name ending in
`.epub`: the last dot of the name is the dot of the extension. -/
theorem findSub_dot_reversed_epub (l : List Char) :
    findSub ['.'] (['b', 'u', 'p', 'e', '.'] ++ l) = some 4 := by
  simp [findSub, List.isPrefixOf]

/-- On a name of the form `st ++ ".epub"` with nonempty `st`, the
Python stem is exactly `st`. -/
theorem pyStem_of_epub (name : String) (st : List Char) (hne : st ≠ [])
    (h : name.data = st ++ ".epub".data) : (pyStem name).data = st := by
  have hrev5 : (".epub" : String).data.reverse = ['b', 'u', 'p', 'e', '.'] := by decide
  have hrev : name.data.reverse = ['b', 'u', 'p', 'e', '.'] ++ st.reverse := by
    rw [h, List.reverse_append, hrev5]
  have h5 : (".epub" : String).data.length = 5 := by decide
  have hlen : name.data.length = st.length + 5 := by
    rw [h, List.length_append, h5]
  have hpos : 0 < st.length := List.length_pos.mpr hne
  unfold pyStem
  rw [hrev, findSub_dot_reversed_epub]
  have hidx : name.data.length - 1 - 4 = st.length := by omega
  dsimp only
  rw [if_pos ⟨by omega, by omega⟩]
  show name.data.take (name.data.length - 1 - 4) = st
  rw [hidx, h, List.take_left]

/-- The characters of the Python stem are an initial segment of the
characters of the name. -/
theorem pyStem_data_initial (name : String) : (pyStem name).data <+: name.data := by
  unfold pyStem
  cases findSub ['.'] name.data.reverse with
  | none => exact List.prefix_refl _
  | some r =>
    dsimp only
    split_ifs with hcond
    · exact List.take_prefix _ _
    · exact List.prefix_refl _

/-- C2.  For every directory containing exactly one file matching the
generated extension, the packager returns a payload whose bytes equal
that file's bytes verbatim, paired with that file's original base name
unmodified. -/
theorem single_file_returned_verbatim (d : List FSFile) (f : FSFile)
    (hfiles : globEpub d = [f]) :
    make_one_bytesio_file d = .ok (.single f.content, f.name) := by
  unfold make_one_bytesio_file
  rw [hfiles]

/-- Witness for `single_file_returned_verbatim` on a one-file directory. -/
theorem single_file_returned_verbatim_witness :
    make_one_bytesio_file [FSFile.mk "MySeries_Volume_1.epub" [10, 20, 30] 7] =
      .ok (.single [10, 20, 30], "MySeries_Volume_1.epub") :=
  single_file_returned_verbatim _ (FSFile.mk "MySeries_Volume_1.epub" [10, 20, 30] 7)
    (by decide)

/-- C3.  For every directory containing zero files matching the
generated extension, the packager raises (here: `files[0]` raising
IndexError) and never returns a payload. -/
theorem empty_directory_raises (d : List FSFile)
    (hfiles : globEpub d = []) :
    make_one_bytesio_file d = .error .indexError := by
  unfold make_one_bytesio_file
  rw [hfiles]

/-- Witness for `empty_directory_raises` on a directory with no
matching file (one non-epub entry). -/
theorem empty_directory_raises_witness :
    make_one_bytesio_file [FSFile.mk "notes.txt" [1] 0] = .error .indexError :=
  empty_directory_raises [FSFile.mk "notes.txt" [1] 0] (by decide)

/-- C9.  The packager is a deterministic transformation of the
directory's matching contents: two invocations that enumerate the same
matching files (same names, same bytes, same modification times — the
only inputs to the archive serialization) produce identical payloads
and identical names.  In particular, calling it twice on the same
unmodified directory yields byte-identical payloads. -/
theorem packager_deterministic (d₁ d₂ : List FSFile)
    (h : globEpub d₁ = globEpub d₂) :
    make_one_bytesio_file d₁ = make_one_bytesio_file d₂ := by
  unfold make_one_bytesio_file
  rw [h]

/-- Witness for `packager_deterministic`: the same one-entry directory
listed twice. -/
theorem packager_deterministic_witness :
    make_one_bytesio_file [FSFile.mk "A_Volume_1.epub" [5] 1] =
      make_one_bytesio_file [FSFile.mk "A_Volume_1.epub" [5] 1] :=
  packager_deterministic [FSFile.mk "A_Volume_1.epub" [5] 1]
    [FSFile.mk "A_Volume_1.epub" [5] 1] (by decide)

/-- C1.  For every directory holding more than one matching file whose
first file carries the separator token, the packager returns an
in-memory archive whose entries are exactly the matching files, in
enumeration order, each under its original base name with its exact
bytes (and source mtime); and the download name is the first file's
name truncated at the first occurrence of `'_Volume_'` with `.zip`
appended.  The hypothesis locates the token in the first file's stem
(where the code searches); the second conjunct certifies that `i` is
also the first occurrence of the token in the file's full name, so the
name in the first conjunct is literally the truncated file name. -/
theorem multi_file_archive_contents_and_name
    (d : List FSFile) (f g : FSFile) (rest : List FSFile) (i : Nat)
    (hfiles : globEpub d = f :: g :: rest)
    (hidx : findSub volToken (pyStem f.name).data = some i) :
    make_one_bytesio_file d =
      .ok (.zipArchive ((f :: g :: rest).map (fun x => ZipEntry.mk x.name x.mtime x.content)),
           String.mk (f.name.data.take i) ++ ".zip")
    ∧ findSub volToken f.name.data = some i := by
  have hf_mem : f ∈ globEpub d := by
    rw [hfiles]
    exact List.mem_cons_self _ _
  have hf_suf : (".epub" : String).data <:+ f.name.data :=
    List.isSuffixOf_iff_suffix.mp (List.mem_filter.mp hf_mem).2
  obtain ⟨st, hst⟩ := hf_suf
  have hname : f.name.data = st ++ ".epub".data := hst.symm
  by_cases hne : st = []
  · exfalso
    obtain ⟨hpre, -⟩ := (findSub_eq_some_iff _ _ _).mp hidx
    have h8 : volToken.length = 8 := by decide
    have hplen := hpre.length_le
    have hstemlen := (pyStem_data_initial f.name).length_le
    have h5 : f.name.data.length = 5 := by
      rw [hname, hne, List.nil_append]
      decide
    rw [List.length_drop] at hplen
    omega
  · have hstem : (pyStem f.name).data = st := pyStem_of_epub f.name st hne hname
    rw [hstem] at hidx
    have hvne : volToken ≠ [] := by decide
    obtain ⟨hfn, hbound⟩ := findSub_append_left (".epub".data) hvne hidx
    have h8 : volToken.length = 8 := by decide
    have htake : f.name.data.take i = st.take i := by
      rw [hname, List.take_append_eq_append_take, Nat.sub_eq_zero_of_le (by omega),
        List.take_zero, List.append_nil]
    constructor
    · unfold make_one_bytesio_file
      rw [hfiles]
      dsimp only
      rw [hstem, hidx, htake]
    · rw [hname]
      exact hfn

/-- Witness for `multi_file_archive_contents_and_name` on the spec's
scenario B: two volumes of `MySeries`; the derived name is
`MySeries.zip` (take 8 of the first name, `.zip` appended). -/
theorem multi_file_archive_contents_and_name_witness :
    make_one_bytesio_file
        [FSFile.mk "MySeries_Volume_1.epub" [1, 2] 10,
         FSFile.mk "MySeries_Volume_2.epub" [3] 11] =
      .ok (.zipArchive
             [ZipEntry.mk "MySeries_Volume_1.epub" 10 [1, 2],
              ZipEntry.mk "MySeries_Volume_2.epub" 11 [3]],
           String.mk ("MySeries_Volume_1.epub".data.take 8) ++ ".zip")
    ∧ findSub volToken "MySeries_Volume_1.epub".data = some 8 :=
  multi_file_archive_contents_and_name
    [FSFile.mk "MySeries_Volume_1.epub" [1, 2] 10,
     FSFile.mk "MySeries_Volume_2.epub" [3] 11]
    (FSFile.mk "MySeries_Volume_1.epub" [1, 2] 10)
    (FSFile.mk "MySeries_Volume_2.epub" [3] 11) [] 8 (by decide) (by decide)

/-- C4.  For every directory with more than one matching file whose
first file's name nowhere contains the token `'_Volume_'`, archive-name
derivation raises (Python `str.index` raising ValueError) instead of
returning a truncated, empty or garbage name. -/
theorem missing_separator_raises (d : List FSFile) (f g : FSFile) (rest : List FSFile)
    (hfiles : globEpub d = f :: g :: rest)
    (habs : ∀ j, ¬ volToken <+: f.name.data.drop j) :
    make_one_bytesio_file d = .error .valueError := by
  have hstem : findSub volToken (pyStem f.name).data = none := by
    rw [findSub_eq_none_iff]
    intro j hc
    obtain ⟨t, ht⟩ := pyStem_data_initial f.name
    have hdrop : (pyStem f.name).data.drop j ++ t.drop (j - (pyStem f.name).data.length) =
        f.name.data.drop j := by
      rw [← ht, List.drop_append_eq_append_drop]
    exact habs j (hc.trans ⟨_, hdrop⟩)
  unfold make_one_bytesio_file
  rw [hfiles]
  dsimp only
  rw [hstem]

/-- Witness for `missing_separator_raises`: two epub files whose first
name has no `'_Volume_'`. -/
theorem missing_separator_raises_witness :
    make_one_bytesio_file
        [FSFile.mk "MySeries.epub" [1] 0, FSFile.mk "Other.epub" [2] 0] =
      .error .valueError :=
  missing_separator_raises
    [FSFile.mk "MySeries.epub" [1] 0, FSFile.mk "Other.epub" [2] 0]
    (FSFile.mk "MySeries.epub" [1] 0) (FSFile.mk "Other.epub" [2] 0) [] (by decide)
    ((findSub_eq_none_iff _ _).mp (by decide))

/-- C8.  Whenever the packager returns a payload, the download name
contains no path separator, provided the directory enumeration yields
base names (which file-system enumeration guarantees): in the single
file branch the name is the file's base name, and in the archive branch
it is a truncation of the first base name's stem plus `.zip`. -/
theorem download_name_has_no_separator (d : List FSFile) (p : Payload) (nm : String)
    (hclean : ∀ f, f ∈ d → '/' ∉ f.name.data)
    (h : make_one_bytesio_file d = .ok (p, nm)) :
    '/' ∉ nm.data := by
  unfold make_one_bytesio_file at h
  cases hg : globEpub d with
  | nil =>
    rw [hg] at h
    simp at h
  | cons f rest =>
    have hf_mem : f ∈ d := List.mem_of_mem_filter (hg ▸ List.mem_cons_self f rest)
    cases rest with
    | nil =>
      rw [hg] at h
      dsimp only at h
      have hnm : nm = f.name := by
        simp only [Except.ok.injEq, Prod.mk.injEq] at h
        exact h.2.symm
      rw [hnm]
      exact hclean f hf_mem
    | cons g rest2 =>
      rw [hg] at h
      dsimp only at h
      cases hidx : findSub volToken (pyStem f.name).data with
      | none =>
        rw [hidx] at h
        simp at h
      | some i =>
        rw [hidx] at h
        dsimp only at h
        have hnm : nm = String.mk ((pyStem f.name).data.take i) ++ ".zip" := by
          simp only [Except.ok.injEq, Prod.mk.injEq] at h
          exact h.2.symm
        rw [hnm]
        intro hmem
        rw [String.data_append] at hmem
        rcases List.mem_append.mp hmem with h1 | h2
        · exact hclean f hf_mem
            ((pyStem_data_initial f.name).subset (List.take_subset _ _ h1))
        · exact (by decide : '/' ∉ (".zip" : String).data) h2

/-- Witness for `download_name_has_no_separator` on a one-file
directory. -/
theorem download_name_has_no_separator_witness : '/' ∉ "A_Volume_1.epub".data :=
  download_name_has_no_separator [FSFile.mk "A_Volume_1.epub" [1] 0]
    (.single [1]) "A_Volume_1.epub" (by decide) rfl

/-- C5, counterexample.  The claim says that when generation fails the
handler still attempts removal of the working directory.  At a concrete
failing generation the handler does skip the packager, but the cleanup
line is never reached, so the claimed conjunction is false. -/
theorem gen_failure_claim_counterexample :
    ¬ ((index (FormData.mk (some "https://j-novel.club/s/a") (some ""))
          (fun _ _ => .error ())).packagerInvoked = false
       ∧ (index (FormData.mk (some "https://j-novel.club/s/a") (some ""))
          (fun _ _ => .error ())).cleanupAttempted = true) := by
  intro h
  simpa [index] using h.2

/-- C5, amended.  When the Generation Adapter raises, the handler does
not invoke the Output Packager — and, because `index` has no
try/finally, it also never reaches the directory-cleanup line: the
error propagates with no removal attempted. -/
theorem gen_failure_skips_packaging_and_cleanup (form : FormData) (url parts : String)
    (gen : String → String → Except Unit (List FSFile))
    (hurl : form.jnovelclub_url = some url) (hparts : form.prepub_parts = some parts)
    (hgen : gen url parts = .error ()) :
    (index form gen).packagerInvoked = false
    ∧ (index form gen).cleanupAttempted = false
    ∧ (index form gen).response = .error .generationFailed := by
  unfold index
  rw [hurl]
  dsimp only
  rw [hparts]
  dsimp only
  rw [hgen]
  exact ⟨rfl, rfl, rfl⟩

/-- Witness for `gen_failure_skips_packaging_and_cleanup` at a concrete
failing generation. -/
theorem gen_failure_skips_packaging_and_cleanup_witness :
    (index (FormData.mk (some "u") (some "")) (fun _ _ => .error ())).packagerInvoked = false
    ∧ (index (FormData.mk (some "u") (some "")) (fun _ _ => .error ())).cleanupAttempted = false
    ∧ (index (FormData.mk (some "u") (some "")) (fun _ _ => .error ())).response =
        .error .generationFailed :=
  gen_failure_skips_packaging_and_cleanup (FormData.mk (some "u") (some "")) "u" ""
    (fun _ _ => .error ()) rfl rfl rfl

/-- C6, counterexample.  The claim says a missing or empty source URL is
rejected before invoking generation.  With the URL field present but
empty, generation is invoked with the empty string, so the claim fails
on the empty case. -/
theorem empty_url_claim_counterexample :
    (index (FormData.mk (some "") (some ""))
        (fun _ _ => .ok [FSFile.mk "A_Volume_1.epub" [1] 0])).genInvoked = some ("", "")
    ∧ ¬ (index (FormData.mk (some "") (some ""))
        (fun _ _ => .ok [FSFile.mk "A_Volume_1.epub" [1] 0])).genInvoked = none := by
  constructor
  · rfl
  · decide

/-- C6, amended.  A missing source-URL field is rejected before
generation (the `request.form` lookup raises and nothing further runs),
but an empty URL value is not validated: generation is invoked with the
empty string. -/
theorem missing_url_rejected_empty_url_passed (form : FormData)
    (gen : String → String → Except Unit (List FSFile)) :
    (form.jnovelclub_url = none →
      (index form gen).genInvoked = none
      ∧ (index form gen).response = .error .badRequestKey)
    ∧ (∀ parts, form.jnovelclub_url = some "" → form.prepub_parts = some parts →
      (index form gen).genInvoked = some ("", parts)) := by
  constructor
  · intro hnone
    unfold index
    rw [hnone]
    exact ⟨rfl, rfl⟩
  · intro parts hurl hparts
    unfold index
    rw [hurl]
    dsimp only
    rw [hparts]
    dsimp only
    cases gen "" parts with
    | error e => rfl
    | ok files =>
      dsimp only
      cases make_one_bytesio_file files with
      | error e => rfl
      | ok pr => rfl

/-- Witness for `missing_url_rejected_empty_url_passed`: one request
with the URL field absent, one with it empty. -/
theorem missing_url_rejected_empty_url_passed_witness :
    (index (FormData.mk none (some "")) (fun _ _ => .ok [])).genInvoked = none
    ∧ (index (FormData.mk (some "") (some "3")) (fun _ _ => .ok [])).genInvoked =
        some ("", "3") :=
  ⟨((missing_url_rejected_empty_url_passed (FormData.mk none (some ""))
      (fun _ _ => .ok [])).1 rfl).1,
   (missing_url_rejected_empty_url_passed (FormData.mk (some "") (some "3"))
      (fun _ _ => .ok [])).2 "3" rfl rfl⟩

/-- C7, code evaluated at the failing input.  A POST request with a
valid URL but no `prepub_parts` field at all is not processed as "all
available parts": line 74's `request.form['prepub_parts']` raises a
BadRequestKeyError, so the handler returns an error and generation is
never invoked — even though lines 68-71 had already logged "Requested
ALL" for exactly this case. -/
theorem absent_parts_field_yields_key_error :
    (index (FormData.mk (some "https://j-novel.club/series/x") none)
        (fun _ _ => .ok [FSFile.mk "A_Volume_1.epub" [1] 0])).response =
      .error .badRequestKey
    ∧ (index (FormData.mk (some "https://j-novel.club/series/x") none)
        (fun _ _ => .ok [FSFile.mk "A_Volume_1.epub" [1] 0])).genInvoked = none :=
  ⟨rfl, rfl⟩

/-- A character absent from a list is never found by `lastIdxOf`. -/
theorem lastIdxOf_eq_none_of_not_mem (c : Char) (l : List Char) (h : c ∉ l) :
    lastIdxOf c l = none := by
  induction l with
  | nil => rfl
  | cons a rest ih =>
    have hc : ¬ a = c := fun he => h (he ▸ List.mem_cons_self a rest)
    have hrest : c ∉ rest := fun hm => h (List.mem_cons_of_mem a hm)
    simp only [lastIdxOf]
    rw [ih hrest, if_neg hc]

/-- The last separator of `pre ++ '/' :: l` with separator-free `l` is
the displayed one, at index `pre.length`. -/
theorem lastIdxOf_append_sep (pre l : List Char) (h : '/' ∉ l) :
    lastIdxOf '/' (pre ++ '/' :: l) = some pre.length := by
  induction pre with
  | nil =>
    show lastIdxOf '/' ('/' :: l) = some 0
    simp [lastIdxOf, lastIdxOf_eq_none_of_not_mem '/' l h]
  | cons a rest ih =>
    show (match lastIdxOf '/' (rest ++ '/' :: l) with
          | some i => some (i + 1)
          | none => if a = '/' then some 0 else none) = some (rest.length + 1)
    rw [ih]

/-- C10.  On the success path the cleanup line removes the parent of
the request-scoped working directory `root/addr/timestamp` — that is,
the whole per-caller-address tree `root/addr` — and therefore every
timestamped working directory of that caller address lies inside the
removed tree, not only the one created for the current request.  The
hypotheses restrict to the inputs the handler actually produces
(nonempty, separator-free remote address and strftime timestamp), on
which the string-level `pathParent` agrees with `pathlib`. -/
theorem cleanup_deletes_entire_address_tree (root addr ts : String)
    (_hts0 : ts ≠ "") (hts : '/' ∉ ts.data)
    (_haddr0 : addr ≠ "") (_haddr : '/' ∉ addr.data) :
    cleanupTarget root addr ts = root ++ "/" ++ addr
    ∧ ∀ ts2 : String, removedBy (cleanupTarget root addr ts) (output_dirpath root addr ts2) := by
  have hdata : (output_dirpath root addr ts).data =
      (root ++ "/" ++ addr).data ++ '/' :: ts.data := by
    show (root ++ "/" ++ addr ++ "/" ++ ts).data = _
    have hsl : ("/" : String).data = ['/'] := by decide
    simp [String.data_append, hsl]
  have htarget : cleanupTarget root addr ts = root ++ "/" ++ addr := by
    unfold cleanupTarget pathParent
    rw [hdata, lastIdxOf_append_sep _ _ hts]
    dsimp only
    rw [List.take_left]
  refine ⟨htarget, ?_⟩
  intro ts2
  rw [htarget]
  refine Or.inr ?_
  rw [List.isPrefixOf_iff_prefix]
  refine ⟨ts2.data, ?_⟩
  show (root ++ "/" ++ addr ++ "/").data ++ ts2.data = (output_dirpath root addr ts2).data
  have hsl : ("/" : String).data = ['/'] := by decide
  simp [output_dirpath, String.data_append, hsl]

/-- Witness for `cleanup_deletes_entire_address_tree` with a concrete
root, address and two distinct timestamps. -/
theorem cleanup_deletes_entire_address_tree_witness :
    cleanupTarget "/output" "192.0.2.7" "2024-01-01_00-00_000001" =
      "/output" ++ "/" ++ "192.0.2.7"
    ∧ removedBy (cleanupTarget "/output" "192.0.2.7" "2024-01-01_00-00_000001")
        (output_dirpath "/output" "192.0.2.7" "2024-03-05_10-30_000099") :=
  ⟨(cleanup_deletes_entire_address_tree "/output" "192.0.2.7" "2024-01-01_00-00_000001"
      (by decide) (by decide) (by decide) (by decide)).1,
   (cleanup_deletes_entire_address_tree "/output" "192.0.2.7" "2024-01-01_00-00_000001"
      (by decide) (by decide) (by decide) (by decide)).2 "2024-03-05_10-30_000099"⟩

end JncepWebui
